import Mathlib

/-!
# Verification of the posts/Redis cache pipeline (`src/main.py`)

Shallow embedding of the program in `src/main.py`:

* `RedisDataHandler` (the Store): a key/value map from string keys to string
  blobs, with `insert_data` (`json.dumps` then `SET`) and `retrieve_data`
  (`GET`, truthiness test, then `json.loads`).
* `PostsDataProcessor`: three read-only reports over a held list of posts.
* The top-level driver statements (fetch, store, retrieve, three reports).

Python's `json.dumps` / `json.loads` (standard library, external to the
repository) are modelled by an executable serializer `json_dumps` and an
executable recursive-descent parser `json_loads` over a `Json` value type.
The model elides three aspects of CPython's `json` that no claim depends on:
float literals (numbers are integers here), the `", "` / `": "` default
separators (whitespace), and escape sequences other than `\"` and `\\`
(this model's serializer leaves other characters unescaped and its parser
accepts them unescaped, so serialize-then-parse agrees with CPython's
behaviour on every value).

Python values reachable in this program are JSON values; Python `None` is
identified with `Json.null`, and Python `==` on such values is modelled by
`pyEq` (which, as in CPython, identifies `True` with `1` and `False` with
`0`, and compares dicts ignoring key order).
-/

/-- JSON values (the values produced by `json.loads` / accepted by
`json.dumps`): null, booleans, (integer) numbers, strings, arrays, and
objects with string keys. -/
inductive Json where
  | null : Json
  | bool (b : Bool) : Json
  | num (n : Int) : Json
  | str (s : String) : Json
  | arr (elems : List Json) : Json
  | obj (fields : List (String × Json)) : Json

/-- The decimal digit characters, by value. -/
def digitChar (d : Nat) : Char :=
  if d = 0 then '0' else if d = 1 then '1' else if d = 2 then '2'
  else if d = 3 then '3' else if d = 4 then '4' else if d = 5 then '5'
  else if d = 6 then '6' else if d = 7 then '7' else if d = 8 then '8'
  else '9'

/-- Is this character a decimal digit? -/
def isDig (c : Char) : Bool := 48 ≤ c.toNat && c.toNat ≤ 57

/-- Numeric value of a digit character. -/
def digitVal (c : Char) : Nat := c.toNat - 48

/-- Fueled digit extraction, least significant digit first. -/
def natToRevDigitsF : Nat → Nat → List Char
  | 0, _ => []
  | fuel + 1, n =>
    if n = 0 then [] else digitChar (n % 10) :: natToRevDigitsF fuel (n / 10)

/-- Decimal digits of `n`, least significant first (empty for `0`). -/
def natToRevDigits (n : Nat) : List Char := natToRevDigitsF n n

theorem natToRevDigitsF_zero (fuel : Nat) : natToRevDigitsF fuel 0 = [] := by
  cases fuel <;> rfl

theorem natToRevDigitsF_congr :
    ∀ n f1 f2, n ≤ f1 → n ≤ f2 → natToRevDigitsF f1 n = natToRevDigitsF f2 n := by
  intro n
  induction n using Nat.strong_induction_on with
  | _ n ih =>
    intro f1 f2 h1 h2
    by_cases hn : n = 0
    · subst hn; rw [natToRevDigitsF_zero, natToRevDigitsF_zero]
    · obtain ⟨g1, rfl⟩ : ∃ g, f1 = g + 1 :=
        ⟨f1 - 1, by omega⟩
      obtain ⟨g2, rfl⟩ : ∃ g, f2 = g + 1 :=
        ⟨f2 - 1, by omega⟩
      simp only [natToRevDigitsF, hn, if_false]
      have hdiv : n / 10 < n := Nat.div_lt_self (Nat.pos_of_ne_zero hn) (by decide)
      rw [ih (n / 10) hdiv g1 g2 (by omega) (by omega)]

theorem natToRevDigits_eq (n : Nat) :
    natToRevDigits n =
      if n = 0 then [] else digitChar (n % 10) :: natToRevDigits (n / 10) := by
  by_cases hn : n = 0
  · subst hn; rfl
  · obtain ⟨g, rfl⟩ : ∃ g, n = g + 1 := ⟨n - 1, by omega⟩
    rw [if_neg hn]
    show natToRevDigitsF (g + 1) (g + 1) = _
    rw [show natToRevDigitsF (g + 1) (g + 1) =
        if g + 1 = 0 then []
        else digitChar ((g + 1) % 10) :: natToRevDigitsF g ((g + 1) / 10) from rfl]
    rw [if_neg hn]
    have hdiv : (g + 1) / 10 < g + 1 := Nat.div_lt_self (by omega) (by decide)
    rw [natToRevDigitsF_congr ((g + 1) / 10) g ((g + 1) / 10) (by omega) (le_refl _)]
    rfl

/-- Decimal representation of a natural number, as characters. -/
def natToChars (n : Nat) : List Char :=
  if n = 0 then ['0'] else (natToRevDigits n).reverse

/-- Decimal representation of an integer (Python `repr` of an `int`). -/
def intToChars (n : Int) : List Char :=
  if n < 0 then '-' :: natToChars (-n).toNat else natToChars n.toNat

/-- Decimal representation of a natural number, as a string. -/
def natToStr (n : Nat) : String := String.mk (natToChars n)

/-- Decimal representation of an integer, as a string. -/
def intToStr (n : Int) : String := String.mk (intToChars n)

/-- JSON string escaping of one character (quote and backslash). -/
def escapeChar (c : Char) : List Char :=
  if c = '"' ∨ c = '\\' then ['\\', c] else [c]

/-- JSON string escaping. -/
def escapeStr : List Char → List Char
  | [] => []
  | c :: cs => escapeChar c ++ escapeStr cs

mutual

/-- Model of `json.dumps`: serialize a JSON value to text (characters). -/
def dumpsChars : Json → List Char
  | Json.null => ['n', 'u', 'l', 'l']
  | Json.bool true => ['t', 'r', 'u', 'e']
  | Json.bool false => ['f', 'a', 'l', 's', 'e']
  | Json.num n => intToChars n
  | Json.str s => '"' :: (escapeStr s.data ++ ['"'])
  | Json.arr [] => ['[', ']']
  | Json.arr (x :: xs) => '[' :: (dumpsChars x ++ (arrTail xs ++ [']']))
  | Json.obj [] => ['{', '}']
  | Json.obj ((k, v) :: kvs) =>
      '{' :: ('"' :: (escapeStr k.data ++
        ('"' :: (':' :: (dumpsChars v ++ (objTail kvs ++ ['}']))))))

/-- Serialized form of the second and later array elements. -/
def arrTail : List Json → List Char
  | [] => []
  | x :: xs => ',' :: (dumpsChars x ++ arrTail xs)

/-- Serialized form of the second and later object fields. -/
def objTail : List (String × Json) → List Char
  | [] => []
  | (k, v) :: kvs =>
      ',' :: ('"' :: (escapeStr k.data ++
        ('"' :: (':' :: (dumpsChars v ++ objTail kvs)))))

end

/-- Model of `json.dumps` producing a string. -/
def json_dumps (v : Json) : String := String.mk (dumpsChars v)

/-- Consume a maximal run of decimal digits, accumulating their value. -/
def parseDigits : Nat → List Char → Nat × List Char
  | acc, [] => (acc, [])
  | acc, c :: cs =>
      if isDig c then parseDigits (acc * 10 + digitVal c) cs else (acc, c :: cs)

/-- Parse a nonempty run of decimal digits. -/
def parseNat (cs : List Char) : Option (Nat × List Char) :=
  match cs with
  | [] => none
  | c :: cs' => if isDig c then some (parseDigits (digitVal c) cs') else none

/-- Parse the body of a JSON string literal (after the opening quote), up to
and including the closing quote; a backslash escapes the next character. -/
def parseStringBody : List Char → Option (List Char × List Char)
  | [] => none
  | c :: cs =>
    if c = '"' then some ([], cs)
    else if c = '\\' then
      match cs with
      | [] => none
      | d :: cs' => (parseStringBody cs').map (fun p => (d :: p.1, p.2))
    else (parseStringBody cs).map (fun p => (c :: p.1, p.2))

mutual

/-- Model of `json.loads`: recursive-descent parser for one JSON value,
fueled so the recursion is structural. Returns the value and the unread
remainder, or `none` on malformed input (a raised `JSONDecodeError`). -/
def parseValue : Nat → List Char → Option (Json × List Char)
  | 0, _ => none
  | _ + 1, [] => none
  | fuel + 1, c :: cs =>
    if c = 'n' then
      match cs with
      | 'u' :: 'l' :: 'l' :: rest => some (Json.null, rest)
      | _ => none
    else if c = 't' then
      match cs with
      | 'r' :: 'u' :: 'e' :: rest => some (Json.bool true, rest)
      | _ => none
    else if c = 'f' then
      match cs with
      | 'a' :: 'l' :: 's' :: 'e' :: rest => some (Json.bool false, rest)
      | _ => none
    else if c = '"' then
      (parseStringBody cs).map (fun p => (Json.str (String.mk p.1), p.2))
    else if c = '-' then
      (parseNat cs).map (fun p => (Json.num (-(p.1 : Int)), p.2))
    else if c = '[' then
      match cs with
      | [] => none
      | d :: cs' =>
        if d = ']' then some (Json.arr [], cs')
        else
          match parseValue fuel (d :: cs') with
          | none => none
          | some (v, rest) =>
            match parseArrayTail fuel rest [v] with
            | none => none
            | some (vs, rest') => some (Json.arr vs, rest')
    else if c = '{' then
      match cs with
      | [] => none
      | d :: cs' =>
        if d = '}' then some (Json.obj [], cs')
        else if d = '"' then
          match parseStringBody cs' with
          | none => none
          | some (k, rest) =>
            match rest with
            | ':' :: rest' =>
              match parseValue fuel rest' with
              | none => none
              | some (v, rest'') =>
                match parseObjTail fuel rest'' [(String.mk k, v)] with
                | none => none
                | some (kvs, rest''') => some (Json.obj kvs, rest''')
            | _ => none
        else none
    else if isDig c then
      some (Json.num ((parseDigits (digitVal c) cs).1 : Int),
            (parseDigits (digitVal c) cs).2)
    else none

/-- Parse the rest of an array after at least one element, `acc` holding the
elements read so far in reverse. -/
def parseArrayTail : Nat → List Char → List Json → Option (List Json × List Char)
  | 0, _, _ => none
  | _ + 1, [], _ => none
  | fuel + 1, c :: cs, acc =>
    if c = ']' then some (acc.reverse, cs)
    else if c = ',' then
      match parseValue fuel cs with
      | none => none
      | some (v, rest) => parseArrayTail fuel rest (v :: acc)
    else none

/-- Parse the rest of an object after at least one field, `acc` holding the
fields read so far in reverse. -/
def parseObjTail : Nat → List Char → List (String × Json) →
    Option (List (String × Json) × List Char)
  | 0, _, _ => none
  | _ + 1, [], _ => none
  | fuel + 1, c :: cs, acc =>
    if c = '}' then some (acc.reverse, cs)
    else if c = ',' then
      match cs with
      | '"' :: cs' =>
        match parseStringBody cs' with
        | none => none
        | some (k, rest) =>
          match rest with
          | ':' :: rest' =>
            match parseValue fuel rest' with
            | none => none
            | some (v, rest'') => parseObjTail fuel rest'' ((String.mk k, v) :: acc)
          | _ => none
      | _ => none
    else none

end

/-- Model of `json.loads`: parse a whole string as one JSON value. -/
def json_loads (s : String) : Option Json :=
  match parseValue (s.data.length + 1) s.data with
  | some (v, []) => some v
  | _ => none

/-- Does the input NOT start with a digit? (Guard for maximal-munch number
parsing.) -/
def noDigHead : List Char → Bool
  | [] => true
  | c :: _ => !(isDig c)

theorem isDig_iff {c : Char} : isDig c = true ↔ 48 ≤ c.toNat ∧ c.toNat ≤ 57 := by
  simp [isDig]

theorem isDig_excl {c : Char} (h : isDig c = true) :
    c ≠ 'n' ∧ c ≠ 't' ∧ c ≠ 'f' ∧ c ≠ '"' ∧ c ≠ '-' ∧ c ≠ '[' ∧ c ≠ '{' ∧
    c ≠ ']' ∧ c ≠ '}' ∧ c ≠ ',' ∧ c ≠ ':' := by
  refine ⟨?_, ?_, ?_, ?_, ?_, ?_, ?_, ?_, ?_, ?_, ?_⟩ <;>
    · rintro rfl; exact absurd h (by decide)

theorem digitVal_digitChar : ∀ d < 10, digitVal (digitChar d) = d := by decide

theorem isDig_digitChar : ∀ d < 10, isDig (digitChar d) = true := by decide

theorem natToRevDigits_digits (n : Nat) : ∀ c ∈ natToRevDigits n, isDig c = true := by
  induction n using Nat.strong_induction_on with
  | _ n ih =>
    intro c hc
    rw [natToRevDigits_eq] at hc
    by_cases h : n = 0
    · simp [h] at hc
    · simp only [h, if_false] at hc
      rcases List.mem_cons.mp hc with rfl | hmem
      · exact isDig_digitChar _ (Nat.mod_lt _ (by decide))
      · exact ih (n / 10) (Nat.div_lt_self (Nat.pos_of_ne_zero h) (by decide)) c hmem

theorem natToChars_digits (n : Nat) : ∀ c ∈ natToChars n, isDig c = true := by
  intro c hc
  rw [natToChars] at hc
  by_cases h : n = 0
  · simp [h] at hc; subst hc; decide
  · simp only [h, if_false] at hc
    exact natToRevDigits_digits n c (List.mem_reverse.mp hc)

theorem natToChars_ne_nil (n : Nat) : natToChars n ≠ [] := by
  rw [natToChars]
  by_cases h : n = 0
  · simp [h]
  · simp only [h, if_false]
    rw [natToRevDigits_eq]
    simp [h]

theorem parseDigits_stop {rest : List Char} (acc : Nat) (h : noDigHead rest = true) :
    parseDigits acc rest = (acc, rest) := by
  cases rest with
  | nil => rfl
  | cons c cs =>
    simp only [noDigHead, Bool.not_eq_true'] at h
    simp [parseDigits, h]

theorem parseDigits_append {ds rest : List Char} (acc : Nat)
    (hds : ∀ c ∈ ds, isDig c = true) (hrest : noDigHead rest = true) :
    parseDigits acc (ds ++ rest) =
      (ds.foldl (fun a c => a * 10 + digitVal c) acc, rest) := by
  induction ds generalizing acc with
  | nil => simpa using parseDigits_stop acc hrest
  | cons c cs ih =>
    have hc : isDig c = true := hds c (by simp)
    simp only [List.cons_append, parseDigits, hc, if_true, List.foldl_cons]
    exact ih _ (fun d hd => hds d (by simp [hd]))

theorem foldl_revDigits (n : Nat) :
    ∀ acc, (natToRevDigits n).reverse.foldl (fun a c => a * 10 + digitVal c) acc =
      acc * 10 ^ (natToRevDigits n).length + n := by
  induction n using Nat.strong_induction_on with
  | _ n ih =>
    intro acc
    rw [natToRevDigits_eq]
    by_cases h : n = 0
    · simp [h]
    · simp only [h, if_false, List.reverse_cons, List.foldl_append, List.length_cons]
      rw [ih (n / 10) (Nat.div_lt_self (Nat.pos_of_ne_zero h) (by decide))]
      simp only [List.foldl_cons, List.foldl_nil]
      rw [digitVal_digitChar _ (Nat.mod_lt _ (by decide))]
      have hmod : 10 * (n / 10) + n % 10 = n := Nat.div_add_mod n 10
      ring_nf
      omega

theorem foldl_natToChars (n : Nat) :
    (natToChars n).foldl (fun a c => a * 10 + digitVal c) 0 = n := by
  rw [natToChars]
  by_cases h : n = 0
  · simp [h]; decide
  · simp only [h, if_false]
    rw [foldl_revDigits]
    simp

theorem parseDigits_natToChars {n : Nat} {c : Char} {cs rest : List Char}
    (hrest : noDigHead rest = true) (hsplit : natToChars n = c :: cs) :
    parseDigits (digitVal c) (cs ++ rest) = (n, rest) := by
  have hds : ∀ d ∈ cs, isDig d = true := by
    intro d hd
    exact natToChars_digits n d (by rw [hsplit]; exact List.mem_cons_of_mem _ hd)
  rw [parseDigits_append _ hds hrest]
  have : (natToChars n).foldl (fun a c => a * 10 + digitVal c) 0 = n :=
    foldl_natToChars n
  rw [hsplit] at this
  simp only [List.foldl_cons, Nat.zero_mul, Nat.zero_add] at this
  rw [this]

theorem parseNat_natToChars (n : Nat) {rest : List Char}
    (hrest : noDigHead rest = true) :
    parseNat (natToChars n ++ rest) = some (n, rest) := by
  obtain ⟨c, cs, hsplit⟩ := List.exists_cons_of_ne_nil (natToChars_ne_nil n)
  have hc : isDig c = true := natToChars_digits n c (by rw [hsplit]; simp)
  rw [hsplit, List.cons_append]
  simp only [parseNat, hc, if_true]
  rw [parseDigits_natToChars hrest hsplit]

theorem parseStringBody_quote (rest : List Char) :
    parseStringBody ('"' :: rest) = some ([], rest) := by
  rw [parseStringBody.eq_def]; simp

theorem parseStringBody_esc (d : Char) (cs : List Char) :
    parseStringBody ('\\' :: d :: cs) =
      (parseStringBody cs).map (fun p => (d :: p.1, p.2)) := by
  rw [parseStringBody.eq_def]; simp

theorem parseStringBody_other {c : Char} (h1 : c ≠ '"') (h2 : c ≠ '\\')
    (cs : List Char) :
    parseStringBody (c :: cs) =
      (parseStringBody cs).map (fun p => (c :: p.1, p.2)) := by
  rw [parseStringBody.eq_def]; simp [h1, h2]

theorem parseStringBody_escape (s : List Char) (rest : List Char) :
    parseStringBody (escapeStr s ++ ('"' :: rest)) = some (s, rest) := by
  induction s with
  | nil =>
    simp only [escapeStr, List.nil_append]
    exact parseStringBody_quote rest
  | cons c cs ih =>
    by_cases hc : c = '"' ∨ c = '\\'
    · simp only [escapeStr, escapeChar, hc, if_true, List.cons_append,
        List.append_assoc, List.nil_append]
      rw [parseStringBody_esc, ih]
      rfl
    · push_neg at hc
      simp only [escapeStr, escapeChar, hc.1, hc.2, or_self, if_false,
        List.cons_append, List.singleton_append, List.nil_append]
      rw [parseStringBody_other hc.1 hc.2, ih]
      rfl

mutual

/-- Fuel sufficient for the parser to consume one serialized value. -/
def fuelV : Json → Nat
  | Json.null => 1
  | Json.bool _ => 1
  | Json.num _ => 1
  | Json.str _ => 1
  | Json.arr [] => 1
  | Json.arr (x :: xs) => 1 + fuelV x + fuelT xs
  | Json.obj [] => 1
  | Json.obj ((_, v) :: kvs) => 1 + fuelV v + fuelF kvs

/-- Fuel sufficient for `parseArrayTail` over the serialized tail. -/
def fuelT : List Json → Nat
  | [] => 1
  | x :: xs => 1 + fuelV x + fuelT xs

/-- Fuel sufficient for `parseObjTail` over the serialized tail. -/
def fuelF : List (String × Json) → Nat
  | [] => 1
  | (_, v) :: kvs => 1 + fuelV v + fuelF kvs

end

theorem one_le_fuelV (v : Json) : 1 ≤ fuelV v := by
  cases v with
  | arr xs => cases xs <;> simp [fuelV] <;> omega
  | obj kvs =>
    cases kvs with
    | nil => simp [fuelV]
    | cons kv t =>
      obtain ⟨k, v⟩ := kv
      simp only [fuelV]
      omega
  | _ => simp [fuelV]

theorem one_le_fuelT (xs : List Json) : 1 ≤ fuelT xs := by
  cases xs <;> simp [fuelT] <;> omega

theorem one_le_fuelF (kvs : List (String × Json)) : 1 ≤ fuelF kvs := by
  cases kvs with
  | nil => simp [fuelF]
  | cons kv t =>
    obtain ⟨k, v⟩ := kv
    simp only [fuelF]
    omega

theorem noDigHead_arrTail (xs : List Json) (rest : List Char) :
    noDigHead (arrTail xs ++ (']' :: rest)) = true := by
  cases xs with
  | nil => rfl
  | cons x t => rfl

theorem noDigHead_objTail (kvs : List (String × Json)) (rest : List Char) :
    noDigHead (objTail kvs ++ ('}' :: rest)) = true := by
  cases kvs with
  | nil => rfl
  | cons kv t => obtain ⟨k, v⟩ := kv; rfl

theorem natToChars_head (n : Nat) :
    ∃ c cs, natToChars n = c :: cs ∧ isDig c = true := by
  obtain ⟨c, cs, h⟩ := List.exists_cons_of_ne_nil (natToChars_ne_nil n)
  exact ⟨c, cs, h, natToChars_digits n c (by rw [h]; simp)⟩

theorem dumps_head_ne (v : Json) :
    ∃ c t, dumpsChars v = c :: t ∧ c ≠ ']' := by
  cases v with
  | null => exact ⟨'n', _, rfl, by decide⟩
  | bool b =>
    cases b with
    | false => exact ⟨'f', _, rfl, by decide⟩
    | true => exact ⟨'t', _, rfl, by decide⟩
  | num n =>
    rw [show dumpsChars (Json.num n) = intToChars n from rfl, intToChars]
    by_cases hn : n < 0
    · simp only [hn, if_true]
      exact ⟨'-', _, rfl, by decide⟩
    · simp only [hn, if_false]
      obtain ⟨c, cs, hsplit, hc⟩ := natToChars_head n.toNat
      exact ⟨c, cs, hsplit, (isDig_excl hc).2.2.2.2.2.2.2.1⟩
  | str s => exact ⟨'"', _, rfl, by decide⟩
  | arr xs =>
    cases xs with
    | nil => exact ⟨'[', _, rfl, by decide⟩
    | cons x t => exact ⟨'[', _, rfl, by decide⟩
  | obj kvs =>
    cases kvs with
    | nil => exact ⟨'{', _, rfl, by decide⟩
    | cons kv t =>
      obtain ⟨k, v⟩ := kv
      exact ⟨'{', _, rfl, by decide⟩

theorem parseValue_quote (f : Nat) (M : List Char) :
    parseValue (f + 1) ('"' :: M) =
      (parseStringBody M).map (fun p => (Json.str (String.mk p.1), p.2)) := rfl

theorem parseValue_neg (f : Nat) (M : List Char) :
    parseValue (f + 1) ('-' :: M) =
      (parseNat M).map (fun p => (Json.num (-(p.1 : Int)), p.2)) := rfl

theorem parseValue_arr_cons (f : Nat) {d : Char} (cs' : List Char) (hd : d ≠ ']') :
    parseValue (f + 1) ('[' :: (d :: cs')) =
      (match parseValue f (d :: cs') with
       | none => none
       | some (v, rest) =>
         match parseArrayTail f rest [v] with
         | none => none
         | some (vs, rest') => some (Json.arr vs, rest')) := by
  have h : parseValue (f + 1) ('[' :: (d :: cs')) =
      if d = ']' then some (Json.arr [], cs')
      else
        (match parseValue f (d :: cs') with
         | none => none
         | some (v, rest) =>
           match parseArrayTail f rest [v] with
           | none => none
           | some (vs, rest') => some (Json.arr vs, rest')) := rfl
  rw [h, if_neg hd]

theorem parseValue_obj_cons (f : Nat) (M : List Char) :
    parseValue (f + 1) ('{' :: ('"' :: M)) =
      (match parseStringBody M with
       | none => none
       | some (k, rest) =>
         match rest with
         | ':' :: rest' =>
           match parseValue f rest' with
           | none => none
           | some (v, rest'') =>
             match parseObjTail f rest'' [(String.mk k, v)] with
             | none => none
             | some (kvs, rest''') => some (Json.obj kvs, rest''')
         | _ => none) := rfl

theorem digit_cases {c : Char} (h : isDig c = true) :
    c = '0' ∨ c = '1' ∨ c = '2' ∨ c = '3' ∨ c = '4' ∨ c = '5' ∨ c = '6' ∨
    c = '7' ∨ c = '8' ∨ c = '9' := by
  simp only [isDig, Bool.and_eq_true, decide_eq_true_eq] at h
  obtain ⟨h1, h2⟩ := h
  have ext : ∀ d : Char, c.toNat = d.toNat → c = d := by
    intro d hd
    exact Char.ext (UInt32.ext hd)
  have hv : c.toNat = 48 ∨ c.toNat = 49 ∨ c.toNat = 50 ∨ c.toNat = 51 ∨
      c.toNat = 52 ∨ c.toNat = 53 ∨ c.toNat = 54 ∨ c.toNat = 55 ∨
      c.toNat = 56 ∨ c.toNat = 57 := by omega
  rcases hv with hv | hv | hv | hv | hv | hv | hv | hv | hv | hv
  · exact Or.inl (ext '0' hv)
  · exact Or.inr (Or.inl (ext '1' hv))
  · exact Or.inr (Or.inr (Or.inl (ext '2' hv)))
  · exact Or.inr (Or.inr (Or.inr (Or.inl (ext '3' hv))))
  · exact Or.inr (Or.inr (Or.inr (Or.inr (Or.inl (ext '4' hv)))))
  · exact Or.inr (Or.inr (Or.inr (Or.inr (Or.inr (Or.inl (ext '5' hv))))))
  · exact Or.inr (Or.inr (Or.inr (Or.inr (Or.inr (Or.inr (Or.inl (ext '6' hv)))))))
  · exact Or.inr (Or.inr (Or.inr (Or.inr (Or.inr (Or.inr (Or.inr (Or.inl (ext '7' hv))))))))
  · exact Or.inr (Or.inr (Or.inr (Or.inr (Or.inr (Or.inr (Or.inr (Or.inr (Or.inl (ext '8' hv)))))))))
  · exact Or.inr (Or.inr (Or.inr (Or.inr (Or.inr (Or.inr (Or.inr (Or.inr (Or.inr (ext '9' hv)))))))))

theorem parseValue_digit (f : Nat) {c : Char} (cs : List Char) (hc : isDig c = true) :
    parseValue (f + 1) (c :: cs) =
      some (Json.num ((parseDigits (digitVal c) cs).1 : Int),
            (parseDigits (digitVal c) cs).2) := by
  rcases digit_cases hc with rfl | rfl | rfl | rfl | rfl | rfl | rfl | rfl | rfl | rfl <;> rfl

theorem parseArrayTail_close (f : Nat) (cs : List Char) (acc : List Json) :
    parseArrayTail (f + 1) (']' :: cs) acc = some (acc.reverse, cs) := rfl

theorem parseArrayTail_comma (f : Nat) (cs : List Char) (acc : List Json) :
    parseArrayTail (f + 1) (',' :: cs) acc =
      (match parseValue f cs with
       | none => none
       | some (v, rest) => parseArrayTail f rest (v :: acc)) := rfl

theorem parseObjTail_close (f : Nat) (cs : List Char) (acc : List (String × Json)) :
    parseObjTail (f + 1) ('}' :: cs) acc = some (acc.reverse, cs) := rfl

theorem parseObjTail_comma (f : Nat) (M : List Char) (acc : List (String × Json)) :
    parseObjTail (f + 1) (',' :: ('"' :: M)) acc =
      (match parseStringBody M with
       | none => none
       | some (k, rest) =>
         match rest with
         | ':' :: rest' =>
           match parseValue f rest' with
           | none => none
           | some (v, rest'') => parseObjTail f rest'' ((String.mk k, v) :: acc)
         | _ => none) := rfl

theorem mk_data (s : String) : String.mk s.data = s := rfl

/-- Parsing inverts serialization for a single value, given enough fuel and a
following character that is not a digit. -/
def RoundV (v : Json) : Prop :=
  ∀ fuel rest, fuelV v ≤ fuel → noDigHead rest = true →
    parseValue fuel (dumpsChars v ++ rest) = some (v, rest)

/-- Parsing inverts serialization for an array tail. -/
def RoundT (xs : List Json) : Prop :=
  ∀ fuel acc rest, fuelT xs ≤ fuel →
    parseArrayTail fuel (arrTail xs ++ (']' :: rest)) acc =
      some (acc.reverse ++ xs, rest)

/-- Parsing inverts serialization for an object tail. -/
def RoundF (kvs : List (String × Json)) : Prop :=
  ∀ fuel acc rest, fuelF kvs ≤ fuel →
    parseObjTail fuel (objTail kvs ++ ('}' :: rest)) acc =
      some (acc.reverse ++ kvs, rest)

theorem round_aux : ∀ n : Nat,
    (∀ v, fuelV v ≤ n → RoundV v) ∧ (∀ xs, fuelT xs ≤ n → RoundT xs) ∧
    (∀ kvs, fuelF kvs ≤ n → RoundF kvs) := by
  intro n
  induction n with
  | zero =>
    refine ⟨?_, ?_, ?_⟩
    · intro v hv; exact absurd hv (by have := one_le_fuelV v; omega)
    · intro xs hxs; exact absurd hxs (by have := one_le_fuelT xs; omega)
    · intro kvs hkvs; exact absurd hkvs (by have := one_le_fuelF kvs; omega)
  | succ n ih =>
    obtain ⟨ihV, ihT, ihF⟩ := ih
    refine ⟨?_, ?_, ?_⟩
    · intro v hv fuel rest hfuel hrest
      obtain ⟨f, rfl⟩ : ∃ f, fuel = f + 1 :=
        ⟨fuel - 1, by have := one_le_fuelV v; omega⟩
      cases v with
      | null => rfl
      | bool b => cases b <;> rfl
      | num m =>
        rw [show dumpsChars (Json.num m) = intToChars m from rfl, intToChars]
        by_cases hm : m < 0
        · rw [if_pos hm, List.cons_append, parseValue_neg,
            parseNat_natToChars _ hrest]
          have hval : -(((-m).toNat : Nat) : Int) = m := by omega
          simp only [Option.map_some']
          rw [hval]
        · rw [if_neg hm]
          obtain ⟨c, cs, hsplit, hc⟩ := natToChars_head m.toNat
          rw [hsplit, List.cons_append, parseValue_digit f _ hc,
            parseDigits_natToChars hrest hsplit]
          have hval : ((m.toNat : Nat) : Int) = m := by omega
          simp [hval]
      | str s =>
        rw [show dumpsChars (Json.str s) = '"' :: (escapeStr s.data ++ ['"'])
            from rfl,
          List.cons_append, List.append_assoc, List.singleton_append,
          parseValue_quote, parseStringBody_escape]
        rfl
      | arr xs =>
        cases xs with
        | nil => rfl
        | cons x t =>
          have hfv : fuelV (Json.arr (x :: t)) = 1 + fuelV x + fuelT t := rfl
          rw [hfv] at hv hfuel
          obtain ⟨c, cT, hsplit, hne⟩ := dumps_head_ne x
          rw [show dumpsChars (Json.arr (x :: t)) =
              '[' :: (dumpsChars x ++ (arrTail t ++ [']'])) from rfl,
            List.cons_append, List.append_assoc, List.append_assoc,
            List.singleton_append, hsplit, List.cons_append,
            parseValue_arr_cons f _ hne, ← List.cons_append, ← hsplit]
          have hA : parseValue f (dumpsChars x ++ (arrTail t ++ (']' :: rest))) =
              some (x, arrTail t ++ (']' :: rest)) :=
            ihV x (by omega) f _ (by omega) (noDigHead_arrTail t rest)
          have hB : parseArrayTail f (arrTail t ++ (']' :: rest)) [x] =
              some (([x] : List Json).reverse ++ t, rest) :=
            ihT t (by omega) f [x] rest (by omega)
          simp [hA, hB]
      | obj kvs =>
        cases kvs with
        | nil => rfl
        | cons kv t =>
          obtain ⟨k, v⟩ := kv
          have hfv : fuelV (Json.obj ((k, v) :: t)) = 1 + fuelV v + fuelF t := rfl
          rw [hfv] at hv hfuel
          rw [show dumpsChars (Json.obj ((k, v) :: t)) =
              '{' :: ('"' :: (escapeStr k.data ++
                ('"' :: (':' :: (dumpsChars v ++ (objTail t ++ ['}']))))))
              from rfl]
          simp only [List.cons_append, List.append_assoc, List.singleton_append]
          rw [parseValue_obj_cons, parseStringBody_escape]
          have hA : parseValue f (dumpsChars v ++ (objTail t ++ ('}' :: rest))) =
              some (v, objTail t ++ ('}' :: rest)) :=
            ihV v (by omega) f _ (by omega) (noDigHead_objTail t rest)
          have hB : parseObjTail f (objTail t ++ ('}' :: rest))
                [(String.mk k.data, v)] =
              some (([(String.mk k.data, v)] :
                List (String × Json)).reverse ++ t, rest) :=
            ihF t (by omega) f _ rest (by omega)
          simp [hA, hB, mk_data]
    · intro xs hxs fuel acc rest hfuel
      obtain ⟨f, rfl⟩ : ∃ f, fuel = f + 1 :=
        ⟨fuel - 1, by have := one_le_fuelT xs; omega⟩
      cases xs with
      | nil =>
        rw [show arrTail [] = ([] : List Char) from rfl, List.nil_append,
          parseArrayTail_close]
        simp
      | cons x t =>
        have hft : fuelT (x :: t) = 1 + fuelV x + fuelT t := rfl
        rw [hft] at hxs hfuel
        rw [show arrTail (x :: t) = ',' :: (dumpsChars x ++ arrTail t) from rfl,
          List.cons_append, List.append_assoc, parseArrayTail_comma]
        have hA : parseValue f (dumpsChars x ++ (arrTail t ++ (']' :: rest))) =
            some (x, arrTail t ++ (']' :: rest)) :=
          ihV x (by omega) f _ (by omega) (noDigHead_arrTail t rest)
        have hB : parseArrayTail f (arrTail t ++ (']' :: rest)) (x :: acc) =
            some ((x :: acc).reverse ++ t, rest) :=
          ihT t (by omega) f (x :: acc) rest (by omega)
        simp [hA, hB]
    · intro kvs hkvs fuel acc rest hfuel
      obtain ⟨f, rfl⟩ : ∃ f, fuel = f + 1 :=
        ⟨fuel - 1, by have := one_le_fuelF kvs; omega⟩
      cases kvs with
      | nil =>
        rw [show objTail [] = ([] : List Char) from rfl, List.nil_append,
          parseObjTail_close]
        simp
      | cons kv t =>
        obtain ⟨k, v⟩ := kv
        have hff : fuelF ((k, v) :: t) = 1 + fuelV v + fuelF t := rfl
        rw [hff] at hkvs hfuel
        rw [show objTail ((k, v) :: t) =
            ',' :: ('"' :: (escapeStr k.data ++
              ('"' :: (':' :: (dumpsChars v ++ objTail t))))) from rfl]
        simp only [List.cons_append, List.append_assoc]
        rw [parseObjTail_comma, parseStringBody_escape]
        have hA : parseValue f (dumpsChars v ++ (objTail t ++ ('}' :: rest))) =
            some (v, objTail t ++ ('}' :: rest)) :=
          ihV v (by omega) f _ (by omega) (noDigHead_objTail t rest)
        have hB : parseObjTail f (objTail t ++ ('}' :: rest))
              ((String.mk k.data, v) :: acc) =
            some (((String.mk k.data, v) :: acc).reverse ++ t, rest) :=
          ihF t (by omega) f _ rest (by omega)
        simp [hA, hB, mk_data]

theorem one_le_length_intToChars (m : Int) : 1 ≤ (intToChars m).length := by
  rw [intToChars]
  by_cases hm : m < 0
  · simp [hm]
  · simp only [hm, if_false]
    exact List.length_pos.mpr (natToChars_ne_nil _)

theorem fuel_le_len : ∀ n : Nat,
    (∀ v, fuelV v ≤ n → fuelV v ≤ (dumpsChars v).length) ∧
    (∀ xs, fuelT xs ≤ n → fuelT xs ≤ (arrTail xs).length + 1) ∧
    (∀ kvs, fuelF kvs ≤ n → fuelF kvs ≤ (objTail kvs).length + 1) := by
  intro n
  induction n with
  | zero =>
    refine ⟨?_, ?_, ?_⟩
    · intro v hv; exact absurd hv (by have := one_le_fuelV v; omega)
    · intro xs hxs; exact absurd hxs (by have := one_le_fuelT xs; omega)
    · intro kvs hkvs; exact absurd hkvs (by have := one_le_fuelF kvs; omega)
  | succ n ih =>
    obtain ⟨ihV, ihT, ihF⟩ := ih
    refine ⟨?_, ?_, ?_⟩
    · intro v hv
      cases v with
      | null => decide
      | bool b => cases b <;> decide
      | num m =>
        have := one_le_length_intToChars m
        rw [show fuelV (Json.num m) = 1 from rfl]
        exact this
      | str s =>
        rw [show fuelV (Json.str s) = 1 from rfl,
          show dumpsChars (Json.str s) = '"' :: (escapeStr s.data ++ ['"'])
            from rfl]
        simp
      | arr xs =>
        cases xs with
        | nil => decide
        | cons x t =>
          have hfv : fuelV (Json.arr (x :: t)) = 1 + fuelV x + fuelT t := rfl
          rw [hfv] at hv
          have h1 : fuelV x ≤ (dumpsChars x).length := ihV x (by omega)
          have h2 : fuelT t ≤ (arrTail t).length + 1 := ihT t (by omega)
          rw [hfv, show dumpsChars (Json.arr (x :: t)) =
              '[' :: (dumpsChars x ++ (arrTail t ++ [']'])) from rfl]
          simp only [List.length_cons, List.length_append, List.length_singleton]
          omega
      | obj kvs =>
        cases kvs with
        | nil => decide
        | cons kv t =>
          obtain ⟨k, v⟩ := kv
          have hfv : fuelV (Json.obj ((k, v) :: t)) = 1 + fuelV v + fuelF t := rfl
          rw [hfv] at hv
          have h1 : fuelV v ≤ (dumpsChars v).length := ihV v (by omega)
          have h2 : fuelF t ≤ (objTail t).length + 1 := ihF t (by omega)
          rw [hfv, show dumpsChars (Json.obj ((k, v) :: t)) =
              '{' :: ('"' :: (escapeStr k.data ++
                ('"' :: (':' :: (dumpsChars v ++ (objTail t ++ ['}']))))))
              from rfl]
          simp only [List.length_cons, List.length_append, List.length_singleton]
          omega
    · intro xs hxs
      cases xs with
      | nil => decide
      | cons x t =>
        have hft : fuelT (x :: t) = 1 + fuelV x + fuelT t := rfl
        rw [hft] at hxs
        have h1 : fuelV x ≤ (dumpsChars x).length := ihV x (by omega)
        have h2 : fuelT t ≤ (arrTail t).length + 1 := ihT t (by omega)
        rw [hft, show arrTail (x :: t) = ',' :: (dumpsChars x ++ arrTail t)
            from rfl]
        simp only [List.length_cons, List.length_append]
        omega
    · intro kvs hkvs
      cases kvs with
      | nil => decide
      | cons kv t =>
        obtain ⟨k, v⟩ := kv
        have hff : fuelF ((k, v) :: t) = 1 + fuelV v + fuelF t := rfl
        rw [hff] at hkvs
        have h1 : fuelV v ≤ (dumpsChars v).length := ihV v (by omega)
        have h2 : fuelF t ≤ (objTail t).length + 1 := ihF t (by omega)
        rw [hff, show objTail ((k, v) :: t) =
            ',' :: ('"' :: (escapeStr k.data ++
              ('"' :: (':' :: (dumpsChars v ++ objTail t))))) from rfl]
        simp only [List.length_cons, List.length_append]
        omega

/-- `json.loads` inverts `json.dumps`: serialize-then-parse is the identity
on JSON values. -/
theorem loads_dumps (v : Json) : json_loads (json_dumps v) = some v := by
  have h1 : fuelV v ≤ (dumpsChars v).length :=
    (fuel_le_len (fuelV v)).1 v (le_refl _)
  have h2 : parseValue ((dumpsChars v).length + 1) (dumpsChars v ++ []) =
      some (v, []) :=
    (round_aux (fuelV v)).1 v (le_refl _) ((dumpsChars v).length + 1) []
      (by omega) rfl
  rw [List.append_nil] at h2
  have hdata : (json_dumps v).data = dumpsChars v := rfl
  simp only [json_loads, hdata, h2]

/-- Are the keys of an object's field list pairwise distinct? (A Python dict
cannot hold duplicate keys, so only such field lists denote Python values.) -/
def keysDistinct : List (String × Json) → Bool
  | [] => true
  | (k, _) :: rest => !(rest.any (fun kv => kv.1 == k)) && keysDistinct rest

mutual

/-- Well-formed JSON values: every object has pairwise-distinct keys. These
are exactly the values that denote Python values (`dict` keys are unique). -/
def wf : Json → Bool
  | Json.null => true
  | Json.bool _ => true
  | Json.num _ => true
  | Json.str _ => true
  | Json.arr xs => wfL xs
  | Json.obj kvs => keysDistinct kvs && wfF kvs

/-- Well-formedness of every element of a list. -/
def wfL : List Json → Bool
  | [] => true
  | x :: xs => wf x && wfL xs

/-- Well-formedness of every field value. -/
def wfF : List (String × Json) → Bool
  | [] => true
  | (_, v) :: kvs => wf v && wfF kvs

end

theorem dumpsChars_ne_nil (v : Json) : dumpsChars v ≠ [] := by
  cases v with
  | null => decide
  | bool b => cases b <;> decide
  | num m =>
    rw [show dumpsChars (Json.num m) = intToChars m from rfl, intToChars]
    by_cases hm : m < 0
    · simp [hm]
    · simp only [hm, if_false]
      exact natToChars_ne_nil _
  | str s => simp [show dumpsChars (Json.str s) =
      '"' :: (escapeStr s.data ++ ['"']) from rfl]
  | arr xs => cases xs <;> simp [dumpsChars]
  | obj kvs =>
    cases kvs with
    | nil => decide
    | cons kv t => obtain ⟨k, v⟩ := kv; simp [dumpsChars]

theorem json_dumps_ne_empty (v : Json) : json_dumps v ≠ "" := by
  intro h
  have : (json_dumps v).data = ("" : String).data := by rw [h]
  rw [show (json_dumps v).data = dumpsChars v from rfl] at this
  exact dumpsChars_ne_nil v this

/-! ## The Store (`RedisDataHandler`) -/

/-- The Redis string database reachable from one client: a map from string
keys to stored text blobs (`decode_responses=True`, so replies are strings).
`none` means the key is absent. -/
def Store := String → Option String

/-- Redis `SET key val` (unconditional overwrite). -/
def Store.set (st : Store) (key val : String) : Store :=
  fun k => if k = key then some val else st k

/-- Redis `GET key`: the stored text, or `none` (Python `None`) if absent. -/
def Store.get (st : Store) (key : String) : Option String := st key

/-- A store with no keys. -/
def emptyStore : Store := fun _ => none

/-- `RedisDataHandler.insert_data`: serialize with `json.dumps` and `SET`
under the key, overwriting unconditionally. -/
def insert_data (st : Store) (key : String) (json_data : Json) : Store :=
  st.set key (json_dumps json_data)

/-- `RedisDataHandler.retrieve_data`: `GET` the key; if the reply is truthy
(present and nonempty) return `json.loads` of it, otherwise return Python
`None` (= `Json.null`). The outer `Option` is `none` exactly when
`json.loads` raises on corrupt text. -/
def retrieve_data (st : Store) (key : String) : Option Json :=
  match st.get key with
  | none => some Json.null
  | some s => if s = "" then some Json.null else json_loads s

theorem store_roundtrip_aux (st : Store) (key : String) (v : Json) :
    retrieve_data (insert_data st key v) key = some v := by
  have hget : (insert_data st key v).get key = some (json_dumps v) := by
    simp [insert_data, Store.set, Store.get]
  simp only [retrieve_data, hget, json_dumps_ne_empty v, if_false, loads_dumps]

theorem retrieve_absent {st : Store} {key : String} (h : st.get key = none) :
    retrieve_data st key = some Json.null := by
  simp only [retrieve_data, h]

/-! ## Claim C1: write-then-read round-trip through the store -/

/-- C1: for every JSON-representable value `v` (a well-formed JSON value,
i.e. one denoting a Python value) and every key, writing `v` with
`insert_data` (serialize with `json.dumps`, `SET` under the key) and then
reading the key back with `retrieve_data` returns exactly `v`: the store
wrapper's write-then-read cycle is lossless. -/
theorem C1_store_write_then_read_roundtrip (st : Store) (key : String)
    (v : Json) (hwf : wf v = true) :
    retrieve_data (insert_data st key v) key = some v :=
  store_roundtrip_aux st key v

/-- Witness for C1 at a concrete store, key and value. -/
theorem C1_store_write_then_read_roundtrip_witness :
    wf (Json.arr [Json.num 1, Json.str "a",
      Json.obj [("k", Json.null), ("u", Json.bool true)]]) = true ∧
    retrieve_data (insert_data emptyStore "posts"
        (Json.arr [Json.num 1, Json.str "a",
          Json.obj [("k", Json.null), ("u", Json.bool true)]])) "posts" =
      some (Json.arr [Json.num 1, Json.str "a",
        Json.obj [("k", Json.null), ("u", Json.bool true)]]) :=
  ⟨rfl, C1_store_write_then_read_roundtrip emptyStore "posts" _ rfl⟩

/-! ## Claim C6: `get` semantics (absent key versus stored value) -/

/-- C6: for every key, when no value is stored under it `retrieve_data`
returns the explicit "no value" result Python `None` (`Json.null`), which is
distinct from an empty collection (`Json.arr []`); and when a value has been
stored under the key with `insert_data`, `retrieve_data` deserializes and
returns that stored JSON value. -/
theorem C6_get_absent_vs_stored (st : Store) (key : String) :
    (st.get key = none →
      retrieve_data st key = some Json.null ∧ Json.null ≠ Json.arr []) ∧
    (∀ v : Json, retrieve_data (insert_data st key v) key = some v) := by
  constructor
  · intro h
    exact ⟨retrieve_absent h, fun hc => Json.noConfusion hc⟩
  · intro v
    exact store_roundtrip_aux st key v

/-- Witness for C6 at a concrete store and key. -/
theorem C6_get_absent_vs_stored_witness :
    (retrieve_data emptyStore "k" = some Json.null ∧
      Json.null ≠ Json.arr []) ∧
    retrieve_data (insert_data emptyStore "k" (Json.num 5)) "k" =
      some (Json.num 5) := by
  obtain ⟨h1, h2⟩ := C6_get_absent_vs_stored emptyStore "k"
  exact ⟨h1 rfl, h2 (Json.num 5)⟩

/-! ## Claim C9: absent key, stored JSON `null`, and empty stored text are
indistinguishable through `retrieve_data` -/

/-- C9: `retrieve_data` returns Python `None` (`Json.null`) not only when the
key is absent, but also when the stored JSON value is `null` (its serialized
text `"null"` parses back to `Json.null`) and when the stored text is the
empty string (which is falsy in Python); a caller cannot distinguish the
three situations from the result. -/
theorem C9_null_indistinguishable (st : Store) (key : String) :
    (st.get key = none → retrieve_data st key = some Json.null) ∧
    retrieve_data (insert_data st key Json.null) key = some Json.null ∧
    retrieve_data (st.set key "") key = some Json.null := by
  refine ⟨fun h => retrieve_absent h, store_roundtrip_aux st key Json.null, ?_⟩
  have hget : (st.set key "").get key = some "" := by
    simp [Store.set, Store.get]
  simp [retrieve_data, hget]

/-- Witness for C9 at a concrete store and key. -/
theorem C9_null_indistinguishable_witness :
    retrieve_data emptyStore "k" = some Json.null ∧
    retrieve_data (insert_data emptyStore "k" Json.null) "k" = some Json.null ∧
    retrieve_data (emptyStore.set "k" "") "k" = some Json.null := by
  obtain ⟨h1, h2, h3⟩ := C9_null_indistinguishable emptyStore "k"
  exact ⟨h1 rfl, h2, h3⟩

/-! ## Python `==` on JSON values (`pyEq`) and the Processor -/

/-- First value stored under a key (Python dict lookup; the field lists that
denote Python dicts have distinct keys). -/
def lookupField : List (String × Json) → String → Option Json
  | [], _ => none
  | (k', v) :: rest, k => if k' = k then some v else lookupField rest k

mutual

/-- Model of Python `==` on the values handled by this program. As in
CPython: `None` equals only `None`; `bool` is an `int` subclass, so `True`
equals `1` and `False` equals `0`; numbers compare by value; strings compare
by content and never equal numbers; lists compare pointwise; dicts compare
as key/value sets, ignoring order. -/
def pyEq : Json → Json → Bool
  | Json.null, Json.null => true
  | Json.bool a, Json.bool b => a == b
  | Json.bool a, Json.num m => (if a then (1 : Int) else 0) == m
  | Json.num n, Json.bool b => n == (if b then (1 : Int) else 0)
  | Json.num n, Json.num m => n == m
  | Json.str s, Json.str t => s == t
  | Json.arr xs, Json.arr ys => pyEqList xs ys
  | Json.obj kvs, Json.obj lws => pyEqObj kvs lws
  | _, _ => false

/-- Pointwise Python `==` on lists. -/
def pyEqList : List Json → List Json → Bool
  | [], [] => true
  | x :: xs, y :: ys => pyEq x y && pyEqList xs ys
  | _, _ => false

/-- Python `==` on dicts: same size and every key of the left dict maps in
the right dict to an equal value. -/
def pyEqObj (kvs lws : List (String × Json)) : Bool :=
  kvs.length == lws.length && pyEqFields kvs lws

/-- Every field of the first list is matched by key in the second. -/
def pyEqFields : List (String × Json) → List (String × Json) → Bool
  | [], _ => true
  | (k, v) :: rest, lws =>
      (match lookupField lws k with
       | some w => pyEq v w
       | none => false) && pyEqFields rest lws

end

/-- Python subscript `p["key"]`: the field's value if `p` is a dict holding
the key; `none` models the raised `KeyError`/`TypeError` otherwise. -/
def getField (p : Json) (key : String) : Option Json :=
  match p with
  | Json.obj kvs => lookupField kvs key
  | _ => none

/-- Sequence a fallible function over a list, failing on the first failure
(models a Python loop that may raise). -/
def optTraverse (f : α → Option β) : List α → Option (List β)
  | [] => some []
  | x :: xs =>
    match f x with
    | none => none
    | some y =>
      match optTraverse f xs with
      | none => none
      | some ys => some (y :: ys)

/-- Is this value usable as a Python dict key? JSON scalars are hashable;
lists and dicts raise `TypeError: unhashable type`. -/
def hashable : Json → Bool
  | Json.arr _ => false
  | Json.obj _ => false
  | _ => true

/-- Python `str()` as used by the f-strings in this program. Only scalars are
ever formatted on the paths the program takes (dict keys are hashable, and
the driver's search uses the integer `5`); containers are not modelled and
map to `""`. -/
def pyStr : Json → String
  | Json.null => "None"
  | Json.bool true => "True"
  | Json.bool false => "False"
  | Json.num n => intToStr n
  | Json.str s => s
  | Json.arr _ => ""
  | Json.obj _ => ""

/-- One step of `user_post_counts[uid] += 1` on a `defaultdict(int)` modelled
as an insertion-ordered association list: increment the first entry whose key
is `==` to `uid`, else append a new entry with count 1. -/
def bump : List (Json × Nat) → Json → List (Json × Nat)
  | [], u => [(u, 1)]
  | (k, c) :: rest, u =>
      if pyEq k u then (k, c + 1) :: rest else (k, c) :: bump rest u

/-- The counting loop of `count_posts_by_user` over the stream of userIds;
fails (`TypeError`) on an unhashable key. -/
def countAssoc : List (Json × Nat) → List Json → Option (List (Json × Nat))
  | acc, [] => some acc
  | acc, u :: us => if hashable u then countAssoc (bump acc u) us else none

/-- The `post['userId']` of every post, failing on the first post without
the field. -/
def userIdsOf (data : List Json) : Option (List Json) :=
  optTraverse (fun p => getField p "userId") data

/-- `PostsDataProcessor.count_posts_by_user`, counting phase: the final
`user_post_counts` dict as an insertion-ordered association list. -/
def count_posts_by_user (data : List Json) : Option (List (Json × Nat)) :=
  match userIdsOf data with
  | none => none
  | some us => countAssoc [] us

/-- The printed line for one user: `f"User {user_id} has {count} posts"`. -/
def fmtCountLine (kc : Json × Nat) : String :=
  "User " ++ pyStr kc.1 ++ " has " ++ natToStr kc.2 ++ " posts"

/-- `PostsDataProcessor.count_posts_by_user`: the lines printed to stdout,
one per entry of the counts dict in insertion order. -/
def countLines (data : List Json) : Option (List String) :=
  (count_posts_by_user data).map (List.map fmtCountLine)

/-- The list comprehension of `search_posts_by_user_id`:
`[post for post in self.data if post['userId'] == user_id]`. -/
def search_matches : List Json → Json → Option (List Json)
  | [], _ => some []
  | p :: ps, uid =>
    match getField p "userId" with
    | none => none
    | some u =>
      match search_matches ps uid with
      | none => none
      | some rest => some (if pyEq u uid then p :: rest else rest)

/-- `PostsDataProcessor.search_posts_by_user_id`: the printed lines — the
`Found {n} posts by user '{uid}':` header, then ` - {title}` per match. -/
def search_lines (data : List Json) (uid : Json) : Option (List String) :=
  match search_matches data uid with
  | none => none
  | some ms =>
    match optTraverse (fun p => getField p "title") ms with
    | none => none
    | some titles =>
      some (("Found " ++ natToStr ms.length ++ " posts by user '" ++
          pyStr uid ++ "':") :: titles.map (fun t => " - " ++ pyStr t))

/-- Python `len()` on the values it accepts (strings and containers);
`none` models the `TypeError` on numbers, booleans and `None`. -/
def pyLen : Json → Option Nat
  | Json.str s => some s.length
  | Json.arr xs => some xs.length
  | Json.obj kvs => some kvs.length
  | _ => none

/-- `[len(post['body']) for post in self.data]`. -/
def body_lengths (data : List Json) : Option (List Nat) :=
  optTraverse (fun p => (getField p "body").bind pyLen) data

/-- `PostsDataProcessor.plot_posts_length`: the bar chart's bars, as pairs of
x-position (`range(len(post_lengths))`) and bar height (`post_lengths`),
exactly the two arguments of `plt.bar`. -/
def plot_posts_length (data : List Json) : Option (List (Nat × Nat)) :=
  (body_lengths data).map (fun hs => (List.range hs.length).zip hs)

/-- The integer that Python `==` identifies a `bool` or `int` with, if any
(`True` is `1`, `False` is `0`). -/
def numValue : Json → Option Int
  | Json.bool b => some (if b then 1 else 0)
  | Json.num n => some n
  | _ => none

theorem pyEq_char {a b : Json} (ha : hashable a = true) (hb : hashable b = true) :
    pyEq a b = true ↔
      ((numValue a = none ∧ a = b) ∨
       (∃ x, numValue a = some x ∧ numValue b = some x)) := by
  rcases a with _ | ba | na | sa | xs | kv <;> rcases b with _ | bb | nb | sb | ys | lw <;>
    simp_all [pyEq, hashable, numValue]
  case bool.bool => cases ba <;> cases bb <;> simp
  case bool.num => constructor <;> intro h <;> omega
  case num.bool => constructor <;> intro h <;> omega
  case num.num => exact eq_comm

theorem pyEq_refl_scalar {u : Json} (hu : hashable u = true) :
    pyEq u u = true := by
  rw [pyEq_char hu hu]
  cases h : numValue u with
  | none => exact Or.inl ⟨rfl, rfl⟩
  | some x => exact Or.inr ⟨x, rfl, rfl⟩

theorem pyEq_symm_scalar {a b : Json} (ha : hashable a = true)
    (hb : hashable b = true) (h : pyEq a b = true) : pyEq b a = true := by
  rw [pyEq_char ha hb] at h
  rw [pyEq_char hb ha]
  rcases h with ⟨h1, rfl⟩ | ⟨x, h1, h2⟩
  · exact Or.inl ⟨h1, rfl⟩
  · exact Or.inr ⟨x, h2, h1⟩

theorem pyEq_trans_scalar {a b c : Json} (ha : hashable a = true)
    (hb : hashable b = true) (hc : hashable c = true)
    (h1 : pyEq a b = true) (h2 : pyEq b c = true) : pyEq a c = true := by
  rw [pyEq_char ha hb] at h1
  rw [pyEq_char hb hc] at h2
  rw [pyEq_char ha hc]
  rcases h1 with ⟨n1, rfl⟩ | ⟨x, hx1, hx2⟩
  · rcases h2 with ⟨n2, rfl⟩ | ⟨y, hy1, hy2⟩
    · exact Or.inl ⟨n1, rfl⟩
    · exact Or.inr ⟨y, hy1, hy2⟩
  · rcases h2 with ⟨n2, rfl⟩ | ⟨y, hy1, hy2⟩
    · exact absurd hx2 (by rw [n2]; simp)
    · rw [hx2] at hy1
      obtain rfl : x = y := by injection hy1
      exact Or.inr ⟨x, hx1, hy2⟩

/-- Has a `==`-equal key already been seen? (Python dict key containment.) -/
def seenIn (seen : List Json) (u : Json) : Bool := seen.any (fun k => pyEq k u)

/-- First-seen-order deduplication of a stream of keys, as the claim states
it: the order in which distinct user ids first appear. -/
def dedupAux : List Json → List Json → List Json
  | seen, [] => seen
  | seen, u :: us =>
      if seenIn seen u then dedupAux seen us else dedupAux (seen ++ [u]) us

/-- The distinct user ids of a stream, in first-seen order. -/
def dedupFS (us : List Json) : List Json := dedupAux [] us

theorem mem_bump_keys {acc : List (Json × Nat)} {u : Json} :
    ∀ kc ∈ bump acc u, kc.1 ∈ acc.map Prod.fst ∨ kc.1 = u := by
  induction acc with
  | nil =>
    intro kc h
    rw [show bump [] u = [(u, 1)] from rfl] at h
    rw [List.mem_singleton.mp h]
    right; rfl
  | cons hd rest ih =>
    obtain ⟨k, c⟩ := hd
    intro kc hkc
    by_cases h : pyEq k u = true
    · rw [show bump ((k, c) :: rest) u = (k, c + 1) :: rest from by
        simp [bump, h]] at hkc
      rcases List.mem_cons.mp hkc with rfl | hm
      · left; simp
      · left
        simp only [List.map_cons, List.mem_cons]
        right
        exact List.mem_map_of_mem Prod.fst hm
    · rw [show bump ((k, c) :: rest) u = (k, c) :: bump rest u from by
        simp [bump, h]] at hkc
      rcases List.mem_cons.mp hkc with rfl | hm
      · left; simp
      · rcases ih kc hm with hin | heq
        · left
          simp only [List.map_cons, List.mem_cons]
          right; exact hin
        · right; exact heq

theorem bump_keys (acc : List (Json × Nat)) (u : Json) :
    (bump acc u).map Prod.fst =
      if acc.any (fun kc => pyEq kc.1 u) then acc.map Prod.fst
      else acc.map Prod.fst ++ [u] := by
  induction acc with
  | nil => simp [bump]
  | cons hd rest ih =>
    obtain ⟨k, c⟩ := hd
    by_cases h : pyEq k u = true
    · simp [bump, h]
    · by_cases h2 : rest.any (fun kc => pyEq kc.1 u) = true
      · simp [bump, h, h2, ih]
      · simp [bump, h, h2, ih]

theorem bump_keys_hashable {acc : List (Json × Nat)} {u : Json}
    (hacc : ∀ kc ∈ acc, hashable (Prod.fst kc) = true)
    (hu : hashable u = true) :
    ∀ kc ∈ bump acc u, hashable (Prod.fst kc) = true := by
  intro kc h
  rcases mem_bump_keys kc h with hin | heq
  · obtain ⟨kc', hmem, hfst⟩ := List.mem_map.mp hin
    rw [show Prod.fst kc = kc.1 from rfl, ← hfst]
    exact hacc kc' hmem
  · rw [show Prod.fst kc = kc.1 from rfl, heq]
    exact hu

theorem bump_pairwise {u : Json} :
    ∀ {acc : List (Json × Nat)},
      acc.Pairwise (fun a b => pyEq a.1 b.1 = false) →
      (bump acc u).Pairwise (fun a b => pyEq a.1 b.1 = false) := by
  intro acc
  induction acc with
  | nil =>
    intro _
    rw [show bump [] u = [(u, 1)] from rfl]
    simp
  | cons hd rest ih =>
    obtain ⟨k, c⟩ := hd
    intro hp
    rw [List.pairwise_cons] at hp
    obtain ⟨hhead, htail⟩ := hp
    by_cases h : pyEq k u = true
    · rw [show bump ((k, c) :: rest) u = (k, c + 1) :: rest from by
        simp [bump, h]]
      rw [List.pairwise_cons]
      exact ⟨fun b hb => hhead b hb, htail⟩
    · have hf : pyEq k u = false := by simpa using h
      rw [show bump ((k, c) :: rest) u = (k, c) :: bump rest u from by
        simp [bump, h]]
      rw [List.pairwise_cons]
      refine ⟨?_, ih htail⟩
      intro b hb
      rcases mem_bump_keys b hb with hin | heq
      · obtain ⟨b', hmem, hfst⟩ := List.mem_map.mp hin
        rw [← hfst]
        exact hhead b' hmem
      · rw [heq]
        exact hf

/-- The count stored for the first key `==`-matching `x` (0 when none
matches): how a Python dict read finds the counter for `x`. -/
def cntAcc : List (Json × Nat) → Json → Nat
  | [], _ => 0
  | kc :: rest, x => if pyEq kc.1 x then kc.2 else cntAcc rest x

theorem cntAcc_bump {u x : Json} (hu : hashable u = true)
    (hx : hashable x = true) :
    ∀ acc : List (Json × Nat),
      (∀ kc ∈ acc, hashable (Prod.fst kc) = true) →
      cntAcc (bump acc u) x =
        cntAcc acc x + (if pyEq x u = true then 1 else 0) := by
  intro acc
  induction acc with
  | nil =>
    intro _
    rw [show bump [] u = [(u, 1)] from rfl]
    by_cases h : pyEq x u = true
    · have h' : pyEq u x = true := pyEq_symm_scalar hx hu h
      simp [cntAcc, h, h']
    · have h' : pyEq u x = false := by
        by_contra hc
        simp only [Bool.not_eq_false] at hc
        exact h (pyEq_symm_scalar hu hx hc)
      simp [cntAcc, h, h']
  | cons hd rest ih =>
    intro hacc
    obtain ⟨k, c⟩ := hd
    have hk : hashable k = true := hacc (k, c) (by simp)
    have hrest : ∀ kc ∈ rest, hashable (Prod.fst kc) = true :=
      fun kc h => hacc kc (by simp [h])
    by_cases hku : pyEq k u = true
    · rw [show bump ((k, c) :: rest) u = (k, c + 1) :: rest from by
        simp [bump, hku]]
      by_cases hkx : pyEq k x = true
      · have hxu : pyEq x u = true :=
          pyEq_trans_scalar hx hk hu (pyEq_symm_scalar hk hx hkx) hku
        simp [cntAcc, hkx, hxu]
      · have hxu : pyEq x u = false := by
          by_contra hc
          simp only [Bool.not_eq_false] at hc
          exact hkx (pyEq_trans_scalar hk hu hx hku (pyEq_symm_scalar hx hu hc))
        simp [cntAcc, hkx, hxu]
    · rw [show bump ((k, c) :: rest) u = (k, c) :: bump rest u from by
        simp [bump, hku]]
      by_cases hkx : pyEq k x = true
      · have hxu : pyEq x u = false := by
          by_contra hc
          simp only [Bool.not_eq_false] at hc
          exact hku (pyEq_trans_scalar hk hx hu hkx hc)
        simp [cntAcc, hkx, hxu]
      · simp [cntAcc, hkx, ih hrest]

theorem any_map_fst (acc : List (Json × Nat)) (u : Json) :
    (acc.map Prod.fst).any (fun k => pyEq k u) =
      acc.any (fun kc => pyEq kc.1 u) := by
  induction acc with
  | nil => rfl
  | cons hd rest ih => simp [List.any_cons, ih]

theorem countAssoc_spec :
    ∀ (us : List Json) (acc : List (Json × Nat)),
      (∀ u ∈ us, hashable u = true) →
      (∀ kc ∈ acc, hashable (Prod.fst kc) = true) →
      acc.Pairwise (fun a b => pyEq a.1 b.1 = false) →
      ∃ res, countAssoc acc us = some res ∧
        res.map Prod.fst = dedupAux (acc.map Prod.fst) us ∧
        (∀ kc ∈ res, hashable (Prod.fst kc) = true) ∧
        res.Pairwise (fun a b => pyEq a.1 b.1 = false) ∧
        (∀ x, hashable x = true →
          cntAcc res x = cntAcc acc x + us.countP (fun u => pyEq x u)) := by
  intro us
  induction us with
  | nil =>
    intro acc h1 h2 h3
    exact ⟨acc, rfl, rfl, h2, h3, by simp⟩
  | cons u us ih =>
    intro acc hus hacc hpair
    have hu : hashable u = true := hus u (by simp)
    have hus' : ∀ w ∈ us, hashable w = true := fun w h => hus w (by simp [h])
    have hstep : countAssoc acc (u :: us) = countAssoc (bump acc u) us := by
      simp [countAssoc, hu]
    obtain ⟨res, h1, h2, h3, h4, h5⟩ :=
      ih (bump acc u) hus' (bump_keys_hashable hacc hu) (bump_pairwise hpair)
    refine ⟨res, by rw [hstep]; exact h1, ?_, h3, h4, ?_⟩
    · rw [h2, bump_keys]
      have hseen : seenIn (acc.map Prod.fst) u =
          acc.any (fun kc => pyEq kc.1 u) := any_map_fst acc u
      rw [show dedupAux (acc.map Prod.fst) (u :: us) =
          if seenIn (acc.map Prod.fst) u then dedupAux (acc.map Prod.fst) us
          else dedupAux (acc.map Prod.fst ++ [u]) us from rfl]
      rw [hseen]
      by_cases hc : acc.any (fun kc => pyEq kc.1 u) = true <;> simp [hc]
    · intro x hx
      rw [h5 x hx, cntAcc_bump hu hx acc hacc, List.countP_cons]
      by_cases hxu : pyEq x u = true <;> simp [hxu] <;> omega

theorem cntAcc_of_mem :
    ∀ {res : List (Json × Nat)},
      (∀ kc ∈ res, hashable (Prod.fst kc) = true) →
      res.Pairwise (fun a b => pyEq a.1 b.1 = false) →
      ∀ kc ∈ res, cntAcc res kc.1 = kc.2 := by
  intro res
  induction res with
  | nil =>
    intro _ _ kc h
    simp at h
  | cons hd rest ih =>
    intro hh hp kc hkc
    obtain ⟨k, c⟩ := hd
    rw [List.pairwise_cons] at hp
    rcases List.mem_cons.mp hkc with rfl | hm
    · have hr : pyEq k k = true := pyEq_refl_scalar (hh (k, c) (by simp))
      simp [cntAcc, hr]
    · have hne : pyEq k kc.1 = false := hp.1 kc hm
      simp only [cntAcc, hne, Bool.false_eq_true, if_false]
      exact ih (fun kc' h' => hh kc' (by simp [h'])) hp.2 kc hm

/-! ## Claim C2: per-user counting -/

/-- C2: for every collection of posts (each carrying a `userId`, with
hashable — scalar — ids, as a Python dict requires of its keys),
`count_posts_by_user` produces exactly one entry per distinct userId
(distinct under Python `==`), in the order each userId is first seen
(`dedupFS`), pairwise non-equal, and the count of each entry equals the
number of posts whose userId is `==` to that entry's id; `countLines` emits
exactly one line per entry. This covers the empty collection and a user
repeated `n` times (whose count is then `n`). -/
theorem C2_count_posts_by_user (data : List Json) (us : List Json)
    (h1 : userIdsOf data = some us)
    (h2 : ∀ u ∈ us, hashable u = true) :
    ∃ res, count_posts_by_user data = some res ∧
      res.map Prod.fst = dedupFS us ∧
      res.Pairwise (fun a b => pyEq a.1 b.1 = false) ∧
      (∀ kc ∈ res, kc.2 = us.countP (fun u => pyEq kc.1 u)) ∧
      countLines data = some (res.map fmtCountLine) := by
  obtain ⟨res, hA, hB, hC, hD, hE⟩ := countAssoc_spec us [] h2
    (by intro kc h; simp at h) (by simp)
  have hcount : count_posts_by_user data = some res := by
    simp [count_posts_by_user, h1, hA]
  refine ⟨res, hcount, by simpa [dedupFS] using hB, hD, ?_, ?_⟩
  · intro kc hkc
    have hx := hE kc.1 (hC kc hkc)
    rw [show cntAcc [] kc.1 = 0 from rfl, Nat.zero_add] at hx
    rw [← hx]
    exact (cntAcc_of_mem hC hD kc hkc).symm
  · simp [countLines, hcount]

/-- Witness for C2 at a concrete collection: user 1 twice, user 2 once. -/
theorem C2_count_posts_by_user_witness :
    ∃ res, count_posts_by_user
        [Json.obj [("userId", Json.num 1)], Json.obj [("userId", Json.num 2)],
         Json.obj [("userId", Json.num 1)]] = some res ∧
      res.map Prod.fst = dedupFS [Json.num 1, Json.num 2, Json.num 1] ∧
      res.Pairwise (fun a b => pyEq a.1 b.1 = false) ∧
      (∀ kc ∈ res, kc.2 = ([Json.num 1, Json.num 2, Json.num 1] :
        List Json).countP (fun u => pyEq kc.1 u)) ∧
      countLines [Json.obj [("userId", Json.num 1)],
        Json.obj [("userId", Json.num 2)],
        Json.obj [("userId", Json.num 1)]] = some (res.map fmtCountLine) :=
  C2_count_posts_by_user _ [Json.num 1, Json.num 2, Json.num 1] rfl
    (by decide)

theorem optTraverse_eq_map {α β : Type} (f : α → Option β) (d : β) :
    ∀ l : List α, (∀ x ∈ l, (f x).isSome) →
      optTraverse f l = some (l.map (fun x => (f x).getD d)) := by
  intro l
  induction l with
  | nil => intro _; rfl
  | cons x xs ih =>
    intro h
    obtain ⟨y, hy⟩ := Option.isSome_iff_exists.mp (h x (by simp))
    rw [show optTraverse f (x :: xs) =
        (match f x with
         | none => none
         | some y =>
           match optTraverse f xs with
           | none => none
           | some ys => some (y :: ys)) from rfl,
      hy, ih (fun z hz => h z (by simp [hz]))]
    simp [hy]

theorem optTraverse_some {α β : Type} {f : α → Option β} :
    ∀ {l : List α} {ys : List β}, optTraverse f l = some ys →
      ys.length = l.length ∧ ∀ i, (l.get? i).bind f = ys.get? i := by
  intro l
  induction l with
  | nil =>
    intro ys h
    rw [show optTraverse f [] = some [] from rfl] at h
    obtain rfl : ([] : List β) = ys := by injection h
    exact ⟨rfl, fun i => by simp⟩
  | cons x xs ih =>
    intro ys h
    rw [show optTraverse f (x :: xs) =
        (match f x with
         | none => none
         | some y =>
           match optTraverse f xs with
           | none => none
           | some ys => some (y :: ys)) from rfl] at h
    cases hy : f x with
    | none => rw [hy] at h; exact absurd h (by simp)
    | some y =>
      rw [hy] at h
      cases hys : optTraverse f xs with
      | none => rw [hys] at h; exact absurd h (by simp)
      | some ys' =>
        rw [hys] at h
        obtain rfl : y :: ys' = ys := by injection h
        obtain ⟨hlen, hget⟩ := ih hys
        refine ⟨by simp [hlen], ?_⟩
        intro i
        cases i with
        | zero => simp [hy]
        | succ j => simpa using hget j

theorem search_matches_eq_filter (uid : Json) :
    ∀ data : List Json, (∀ p ∈ data, (getField p "userId").isSome) →
      search_matches data uid = some (data.filter (fun p =>
        match getField p "userId" with
        | some u => pyEq u uid
        | none => false)) := by
  intro data
  induction data with
  | nil => intro _; rfl
  | cons p ps ih =>
    intro h
    obtain ⟨u, hu⟩ := Option.isSome_iff_exists.mp (h p (by simp))
    have hps := ih (fun q hq => h q (by simp [hq]))
    rw [show search_matches (p :: ps) uid =
        (match getField p "userId" with
         | none => none
         | some u =>
           match search_matches ps uid with
           | none => none
           | some rest => some (if pyEq u uid then p :: rest else rest))
        from rfl, hu, hps, List.filter_cons]
    by_cases hmatch : pyEq u uid = true
    · simp [hu, hmatch]
    · simp [hu, hmatch]

/-! ## Claim C3: search by user id -/

/-- C3: for every collection of posts (each with a `userId` and a `title`
field, per the data model) and every user id, `search_posts_by_user_id`
selects exactly the posts whose `userId` is `==` to the queried id,
preserving the collection's original order (it is a `filter`); it prints a
header containing the match count followed by one ` - {title}` line per
match; and when nothing matches it still prints the header with count 0 and
no further lines. -/
theorem C3_search_posts_by_user_id (data : List Json) (uid : Json)
    (hids : ∀ p ∈ data, (getField p "userId").isSome)
    (htitles : ∀ p ∈ data, (getField p "title").isSome) :
    ∃ ms, search_matches data uid = some ms ∧
      ms = data.filter (fun p =>
        match getField p "userId" with
        | some u => pyEq u uid
        | none => false) ∧
      search_lines data uid = some
        (("Found " ++ natToStr ms.length ++ " posts by user '" ++
            pyStr uid ++ "':") ::
          ms.map (fun p => " - " ++ pyStr ((getField p "title").getD Json.null))) ∧
      (ms = [] → search_lines data uid =
        some ["Found " ++ natToStr 0 ++ " posts by user '" ++ pyStr uid ++ "':"]) := by
  have hms := search_matches_eq_filter uid data hids
  set ms := data.filter (fun p =>
    match getField p "userId" with
    | some u => pyEq u uid
    | none => false) with hms_def
  have hmem : ∀ p ∈ ms, (getField p "title").isSome := by
    intro p hp
    exact htitles p (List.mem_of_mem_filter hp)
  have htrav := optTraverse_eq_map (fun p => getField p "title") Json.null ms hmem
  have hlines : search_lines data uid = some
      (("Found " ++ natToStr ms.length ++ " posts by user '" ++
          pyStr uid ++ "':") ::
        ms.map (fun p => " - " ++ pyStr ((getField p "title").getD Json.null))) := by
    unfold search_lines
    rw [hms]
    simp only [htrav, List.map_map]
    rfl
  refine ⟨ms, hms, rfl, hlines, ?_⟩
  intro hempty
  rw [hlines, hempty]
  simp

/-- Witness for C3 at the spec's three-post example, querying user 2. -/
theorem C3_search_posts_by_user_id_witness :
    ∃ ms, search_matches
        [Json.obj [("userId", Json.num 1), ("title", Json.str "a")],
         Json.obj [("userId", Json.num 2), ("title", Json.str "c")]]
        (Json.num 2) = some ms ∧
      ms = ([Json.obj [("userId", Json.num 1), ("title", Json.str "a")],
         Json.obj [("userId", Json.num 2), ("title", Json.str "c")]] :
           List Json).filter (fun p =>
        match getField p "userId" with
        | some u => pyEq u (Json.num 2)
        | none => false) ∧
      search_lines
        [Json.obj [("userId", Json.num 1), ("title", Json.str "a")],
         Json.obj [("userId", Json.num 2), ("title", Json.str "c")]]
        (Json.num 2) = some
        (("Found " ++ natToStr ms.length ++ " posts by user '" ++
            pyStr (Json.num 2) ++ "':") ::
          ms.map (fun p =>
            " - " ++ pyStr ((getField p "title").getD Json.null))) ∧
      (ms = [] → search_lines
        [Json.obj [("userId", Json.num 1), ("title", Json.str "a")],
         Json.obj [("userId", Json.num 2), ("title", Json.str "c")]]
        (Json.num 2) =
        some ["Found " ++ natToStr 0 ++ " posts by user '" ++
          pyStr (Json.num 2) ++ "':"]) :=
  C3_search_posts_by_user_id _ (Json.num 2) (by decide) (by decide)

/-! ## Claim C4: bar chart of body lengths -/

/-- C4: for every collection of posts whose `body` fields support `len()`
(`body_lengths` succeeds, as it does for the text bodies of the data model),
`plot_posts_length` passes `plt.bar` exactly one bar per post: the bars are
`range(n)` zipped with the body lengths, the number of bars equals the
number of posts, and the bar at positional index `i` is at x-coordinate `i`
with height `len(data[i]['body'])`. Covers collections of length 0, 1 and
any `N`. -/
theorem C4_plot_posts_length (data : List Json) (hs : List Nat)
    (h : body_lengths data = some hs) :
    plot_posts_length data = some ((List.range hs.length).zip hs) ∧
    hs.length = data.length ∧
    ((List.range hs.length).zip hs).length = data.length ∧
    ∀ i, i < data.length →
      ((List.range hs.length).zip hs).get? i = some (i, hs.getD i 0) ∧
      (data.get? i).bind (fun p => (getField p "body").bind pyLen) =
        some (hs.getD i 0) := by
  obtain ⟨hlen, hget⟩ := optTraverse_some h
  refine ⟨by simp [plot_posts_length, h], hlen, by simp [hlen], ?_⟩
  intro i hi
  have hi' : i < hs.length := by omega
  obtain ⟨v, hv⟩ : ∃ v, hs.get? i = some v :=
    ⟨hs.get ⟨i, hi'⟩, List.get?_eq_get hi'⟩
  have hgetD : hs.getD i 0 = v := by
    rw [List.getD_eq_get?, hv]
    rfl
  constructor
  · rw [List.get?_zip_eq_some]
    exact ⟨List.get?_range hi', by rw [hv, hgetD]⟩
  · rw [hget i, hv, hgetD]

/-- Witness for C4 at the spec's example bodies (lengths 2, 1, 4). -/
theorem C4_plot_posts_length_witness :
    plot_posts_length
        [Json.obj [("body", Json.str "xx")], Json.obj [("body", Json.str "x")],
         Json.obj [("body", Json.str "xxxx")]] =
      some ((List.range ([2, 1, 4] : List Nat).length).zip [2, 1, 4]) ∧
    ([2, 1, 4] : List Nat).length =
      ([Json.obj [("body", Json.str "xx")], Json.obj [("body", Json.str "x")],
        Json.obj [("body", Json.str "xxxx")]] : List Json).length ∧
    ((List.range ([2, 1, 4] : List Nat).length).zip [2, 1, 4]).length =
      ([Json.obj [("body", Json.str "xx")], Json.obj [("body", Json.str "x")],
        Json.obj [("body", Json.str "xxxx")]] : List Json).length ∧
    ∀ i, i < ([Json.obj [("body", Json.str "xx")],
        Json.obj [("body", Json.str "x")],
        Json.obj [("body", Json.str "xxxx")]] : List Json).length →
      ((List.range ([2, 1, 4] : List Nat).length).zip [2, 1, 4]).get? i =
        some (i, ([2, 1, 4] : List Nat).getD i 0) ∧
      (([Json.obj [("body", Json.str "xx")], Json.obj [("body", Json.str "x")],
          Json.obj [("body", Json.str "xxxx")]] : List Json).get? i).bind
          (fun p => (getField p "body").bind pyLen) =
        some (([2, 1, 4] : List Nat).getD i 0) :=
  C4_plot_posts_length _ [2, 1, 4] rfl

/-! ## Claim C7: the exact count-line format (no trailing period in code) -/

/-- C7 counterexample: the line `count_posts_by_user` prints for a single
post by user 1 is `"User 1 has 1 posts"`, which is not the claimed
`"User 1 has 1 posts."` — the source's f-string has no trailing period. -/
theorem C7_counterexample :
    countLines [Json.obj [("userId", Json.num 1)]] =
      some ["User 1 has 1 posts"] ∧
    "User 1 has 1 posts" ≠ "User 1 has 1 posts." :=
  ⟨rfl, by decide⟩

/-- C7 amended: each line printed by `count_posts_by_user` is exactly the
string `"User {userId} has {count} posts"` (no trailing period), with the
user's id rendered by `str()` and its count substituted. -/
theorem C7_amended_count_line_format (data us : List Json)
    (h1 : userIdsOf data = some us)
    (h2 : ∀ u ∈ us, hashable u = true) :
    ∃ res, count_posts_by_user data = some res ∧
      countLines data = some (res.map (fun kc =>
        "User " ++ pyStr kc.1 ++ " has " ++ natToStr kc.2 ++ " posts")) := by
  obtain ⟨res, hA, -, -, -, -⟩ := countAssoc_spec us [] h2
    (by intro kc h; simp at h) (by simp)
  have hcount : count_posts_by_user data = some res := by
    simp [count_posts_by_user, h1, hA]
  refine ⟨res, hcount, ?_⟩
  simp only [countLines, hcount, Option.map_some']
  rfl

/-- Witness for the amended C7 at a concrete collection. -/
theorem C7_amended_count_line_format_witness :
    ∃ res, count_posts_by_user
        [Json.obj [("userId", Json.num 3)],
         Json.obj [("userId", Json.num 3)]] = some res ∧
      countLines [Json.obj [("userId", Json.num 3)],
          Json.obj [("userId", Json.num 3)]] =
        some (res.map (fun kc =>
          "User " ++ pyStr kc.1 ++ " has " ++ natToStr kc.2 ++ " posts")) :=
  C7_amended_count_line_format _ [Json.num 3, Json.num 3] rfl (by decide)

/-! ## Claim C10: equality semantics of the search -/

/-- C10 counterexample: the search compares with Python `==`, under which
`True == 1`; so the query `5`-style integer `1` matches a post whose
`userId` is the boolean `True`, refuting "matches only posts whose userId is
the equal integer". -/
theorem C10_counterexample :
    search_matches [Json.obj [("userId", Json.bool true)]] (Json.num 1) =
      some [Json.obj [("userId", Json.bool true)]] ∧
    getField (Json.obj [("userId", Json.bool true)]) "userId" =
      some (Json.bool true) ∧
    Json.bool true ≠ Json.num 1 := by
  refine ⟨?_, rfl, fun h => Json.noConfusion h⟩
  simp [search_matches, getField, lookupField, pyEq]

/-- C10 amended: `search_posts_by_user_id` matches by Python `==` on the
`userId` field: with an integer query it selects exactly the posts whose
userId is `==`-equal to it — the equal integer, or `True`/`False` when the
query is `1`/`0` (booleans are integers in Python) — and a post whose
userId is a string representation of the same number is never matched. -/
theorem C10_amended_search_uses_python_equality (data : List Json) (n : Int)
    (hids : ∀ p ∈ data, (getField p "userId").isSome) :
    ∃ ms, search_matches data (Json.num n) = some ms ∧
      ms = data.filter (fun p =>
        match getField p "userId" with
        | some u => pyEq u (Json.num n)
        | none => false) ∧
      (∀ s, pyEq (Json.str s) (Json.num n) = false) ∧
      (∀ m : Int, pyEq (Json.num m) (Json.num n) = true ↔ m = n) ∧
      (pyEq (Json.bool true) (Json.num n) = true ↔ n = 1) ∧
      (pyEq (Json.bool false) (Json.num n) = true ↔ n = 0) := by
  refine ⟨_, search_matches_eq_filter (Json.num n) data hids, rfl,
    ?_, ?_, ?_, ?_⟩
  · intro s; simp [pyEq]
  · intro m; simp [pyEq]
  · have h : pyEq (Json.bool true) (Json.num n) = ((1 : Int) == n) := by
      simp [pyEq]
    rw [h, beq_iff_eq]
    omega
  · have h : pyEq (Json.bool false) (Json.num n) = ((0 : Int) == n) := by
      simp [pyEq]
    rw [h, beq_iff_eq]
    omega

/-- Witness for the amended C10: query `1` against a boolean, a string and
an integer userId. -/
theorem C10_amended_search_uses_python_equality_witness :
    ∃ ms, search_matches
        [Json.obj [("userId", Json.bool true)],
         Json.obj [("userId", Json.str "1")],
         Json.obj [("userId", Json.num 1)]] (Json.num 1) = some ms ∧
      ms = ([Json.obj [("userId", Json.bool true)],
         Json.obj [("userId", Json.str "1")],
         Json.obj [("userId", Json.num 1)]] : List Json).filter (fun p =>
        match getField p "userId" with
        | some u => pyEq u (Json.num 1)
        | none => false) ∧
      (∀ s, pyEq (Json.str s) (Json.num 1) = false) ∧
      (∀ m : Int, pyEq (Json.num m) (Json.num 1) = true ↔ m = 1) ∧
      (pyEq (Json.bool true) (Json.num 1) = true ↔ (1 : Int) = 1) ∧
      (pyEq (Json.bool false) (Json.num 1) = true ↔ (1 : Int) = 0) :=
  C10_amended_search_uses_python_equality _ 1 (by decide)

/-! ## Claim C8: the three reports are stateless and idempotent -/

/-- The observable state a `PostsDataProcessor` run touches: the held
collection (`self.data`), the console, and the chart file at the fixed
output path (`length_of_posts.png`), holding the bars last drawn. -/
structure ProcSt where
  data : List Json
  stdoutLines : List String
  chartFile : Option (List (Nat × Nat))

/-- One of the three report methods. -/
inductive Report where
  | plot : Report
  | countUsers : Report
  | searchUser (uid : Json) : Report

/-- Run one report method: `plot_posts_length` overwrites the chart file and
prints nothing; the other two append their lines to stdout. The returned
list is what this call printed; `none` models a raised exception. None of
the methods assigns `self.data`. -/
def runReport : Report → ProcSt → Option (ProcSt × List String)
  | Report.plot, s =>
      (plot_posts_length s.data).map
        (fun bars => ({ s with chartFile := some bars }, []))
  | Report.countUsers, s =>
      (countLines s.data).map
        (fun ls => ({ s with stdoutLines := s.stdoutLines ++ ls }, ls))
  | Report.searchUser uid, s =>
      (search_lines s.data uid).map
        (fun ls => ({ s with stdoutLines := s.stdoutLines ++ ls }, ls))

/-- The output of a report as a function of the held collection alone. -/
def reportOut (r : Report) (d : List Json) : Option (List String) :=
  match r with
  | Report.plot => (plot_posts_length d).map (fun _ => [])
  | Report.countUsers => countLines d
  | Report.searchUser uid => search_lines d uid

theorem runReport_data {r : Report} {s s' : ProcSt} {o : List String}
    (h : runReport r s = some (s', o)) : s'.data = s.data := by
  cases r with
  | plot =>
    rw [show runReport Report.plot s = (plot_posts_length s.data).map
        (fun bars => ({ s with chartFile := some bars }, [])) from rfl,
      Option.map_eq_some'] at h
    obtain ⟨bars, hb, heq⟩ := h
    cases heq
    rfl
  | countUsers =>
    rw [show runReport Report.countUsers s = (countLines s.data).map
        (fun ls => ({ s with stdoutLines := s.stdoutLines ++ ls }, ls))
        from rfl, Option.map_eq_some'] at h
    obtain ⟨ls, hl, heq⟩ := h
    cases heq
    rfl
  | searchUser uid =>
    rw [show runReport (Report.searchUser uid) s = (search_lines s.data uid).map
        (fun ls => ({ s with stdoutLines := s.stdoutLines ++ ls }, ls))
        from rfl, Option.map_eq_some'] at h
    obtain ⟨ls, hl, heq⟩ := h
    cases heq
    rfl

theorem runReport_out (r : Report) (s : ProcSt) :
    (runReport r s).map Prod.snd = reportOut r s.data := by
  cases r with
  | plot =>
    cases hp : plot_posts_length s.data <;> simp [runReport, reportOut, hp]
  | countUsers =>
    cases hc : countLines s.data <;> simp [runReport, reportOut, hc]
  | searchUser uid =>
    cases hs : search_lines s.data uid <;> simp [runReport, reportOut, hs]

theorem runReport_chart {r : Report} {s s' : ProcSt} {o : List String}
    (h : runReport r s = some (s', o)) :
    s'.chartFile = (match r with
      | Report.plot => plot_posts_length s.data
      | _ => s.chartFile) := by
  cases r with
  | plot =>
    rw [show runReport Report.plot s = (plot_posts_length s.data).map
        (fun bars => ({ s with chartFile := some bars }, [])) from rfl,
      Option.map_eq_some'] at h
    obtain ⟨bars, hb, heq⟩ := h
    cases heq
    simpa using hb.symm
  | countUsers =>
    rw [show runReport Report.countUsers s = (countLines s.data).map
        (fun ls => ({ s with stdoutLines := s.stdoutLines ++ ls }, ls))
        from rfl, Option.map_eq_some'] at h
    obtain ⟨ls, hl, heq⟩ := h
    cases heq
    rfl
  | searchUser uid =>
    rw [show runReport (Report.searchUser uid) s = (search_lines s.data uid).map
        (fun ls => ({ s with stdoutLines := s.stdoutLines ++ ls }, ls))
        from rfl, Option.map_eq_some'] at h
    obtain ⟨ls, hl, heq⟩ := h
    cases heq
    rfl

/-- C8: each report is stateless with respect to the held collection and
idempotent: running a report never changes `self.data`; rerunning the same
report from the resulting state succeeds with the same printed output and
leaves the same chart file (overwriting it with identical content); and
running any other report after it produces exactly the output it would have
produced on the original state. -/
theorem C8_reports_stateless_idempotent (r r' : Report) (s s₁ : ProcSt)
    (o₁ : List String) (h : runReport r s = some (s₁, o₁)) :
    s₁.data = s.data ∧
    (runReport r s₁).map Prod.snd = some o₁ ∧
    (∀ s₂ o₂, runReport r s₁ = some (s₂, o₂) →
      s₂.data = s.data ∧ o₂ = o₁ ∧ s₂.chartFile = s₁.chartFile) ∧
    (runReport r' s₁).map Prod.snd = (runReport r' s).map Prod.snd := by
  have hdata : s₁.data = s.data := runReport_data h
  have hout : reportOut r s.data = some o₁ := by
    rw [← runReport_out, h]
    rfl
  have hrerun : (runReport r s₁).map Prod.snd = some o₁ := by
    rw [runReport_out, hdata, hout]
  refine ⟨hdata, hrerun, ?_, ?_⟩
  · intro s₂ o₂ h₂
    have hd₂ : s₂.data = s.data := by rw [runReport_data h₂, hdata]
    have ho₂ : o₂ = o₁ := by
      have := hrerun
      rw [h₂] at this
      simpa using this
    refine ⟨hd₂, ho₂, ?_⟩
    rw [runReport_chart h₂, runReport_chart h, hdata]
    cases r <;> rfl
  · rw [runReport_out, runReport_out, hdata]

/-- Witness for C8: count-then-plot over a one-post collection. -/
theorem C8_reports_stateless_idempotent_witness :
    let s : ProcSt := ⟨[Json.obj [("userId", Json.num 1),
      ("body", Json.str "xy")]], [], none⟩
    let s₁ : ProcSt := ⟨[Json.obj [("userId", Json.num 1),
      ("body", Json.str "xy")]], ["User 1 has 1 posts"], none⟩
    s₁.data = s.data ∧
    (runReport Report.countUsers s₁).map Prod.snd =
      some ["User 1 has 1 posts"] ∧
    (∀ s₂ o₂, runReport Report.countUsers s₁ = some (s₂, o₂) →
      s₂.data = s.data ∧ o₂ = ["User 1 has 1 posts"] ∧
      s₂.chartFile = s₁.chartFile) ∧
    (runReport Report.plot s₁).map Prod.snd =
      (runReport Report.plot s).map Prod.snd :=
  C8_reports_stateless_idempotent Report.countUsers Report.plot _ _
    ["User 1 has 1 posts"] rfl

/-! ## Claim C5: fatal liveness-check failure -/

/-- Externally visible events of one run of the module-level driver code. -/
inductive Ev where
  | fetch : Ev
  | ping : Ev
  | printErr : Ev
  | setKey (key val : String) : Ev
  | getKey (key : String) : Ev
  | saveChart : Ev
  | printLn (s : String) : Ev

/-- The fixed cache key of the driver. -/
def REDIS_KEY : String := "jsonplaceholder:posts"

/-- The module-level driver: fetch, construct `RedisDataHandler` (whose
`__init__` immediately pings; an unreachable server raises
`redis.exceptions.ConnectionError`, which `check_connection` catches, prints
and answers with `exit(1)` — nothing after it runs), then `insert_data`,
`retrieve_data`, and the three reports on the retrieved value (a `TypeError`
if it is not a list). The result is the process exit status and the trace of
events; a `none` from a modelled call is an uncaught exception, which also
ends the process with status 1. `redisUp` says whether the liveness check
succeeds; `fetched` is the JSON value the fetch produced. -/
def runMain (redisUp : Bool) (fetched : Json) : Nat × List Ev :=
  if redisUp = false then
    (1, [Ev.fetch, Ev.ping, Ev.printErr])
  else
    match retrieve_data (insert_data emptyStore REDIS_KEY fetched) REDIS_KEY with
    | none => (1, [Ev.fetch, Ev.ping,
        Ev.setKey REDIS_KEY (json_dumps fetched), Ev.getKey REDIS_KEY])
    | some v =>
      match v with
      | Json.arr posts =>
        (match plot_posts_length posts with
         | none => (1, [Ev.fetch, Ev.ping,
             Ev.setKey REDIS_KEY (json_dumps fetched), Ev.getKey REDIS_KEY])
         | some _ =>
           match countLines posts with
           | none => (1, [Ev.fetch, Ev.ping,
               Ev.setKey REDIS_KEY (json_dumps fetched), Ev.getKey REDIS_KEY,
               Ev.saveChart])
           | some cls =>
             match search_lines posts (Json.num 5) with
             | none => (1, [Ev.fetch, Ev.ping,
                 Ev.setKey REDIS_KEY (json_dumps fetched),
                 Ev.getKey REDIS_KEY, Ev.saveChart] ++ cls.map Ev.printLn)
             | some sls =>
               (0, [Ev.fetch, Ev.ping,
                 Ev.setKey REDIS_KEY (json_dumps fetched),
                 Ev.getKey REDIS_KEY, Ev.saveChart] ++ cls.map Ev.printLn ++
                 sls.map Ev.printLn))
      | _ => (1, [Ev.fetch, Ev.ping,
          Ev.setKey REDIS_KEY (json_dumps fetched), Ev.getKey REDIS_KEY])

/-- C5: whenever the liveness check at `RedisDataHandler` construction fails,
the process exits with status 1 (non-zero) after the error has been
reported, and the trace contains no `SET` and no `GET`: no `put`/`get` is
ever attempted. -/
theorem C5_liveness_failure_fatal (redisUp : Bool) (fetched : Json)
    (h : redisUp = false) :
    (runMain redisUp fetched).1 = 1 ∧ (1 : Nat) ≠ 0 ∧
    Ev.printErr ∈ (runMain redisUp fetched).2 ∧
    ∀ e ∈ (runMain redisUp fetched).2,
      (∀ k v, e ≠ Ev.setKey k v) ∧ (∀ k, e ≠ Ev.getKey k) := by
  subst h
  refine ⟨rfl, by decide, by simp [runMain], ?_⟩
  intro e he
  rw [show runMain false fetched = (1, [Ev.fetch, Ev.ping, Ev.printErr])
    from rfl] at he
  simp only [List.mem_cons, List.mem_singleton, List.not_mem_nil,
    or_false] at he
  rcases he with rfl | rfl | rfl
  · exact ⟨fun k v h => Ev.noConfusion h, fun k h => Ev.noConfusion h⟩
  · exact ⟨fun k v h => Ev.noConfusion h, fun k h => Ev.noConfusion h⟩
  · exact ⟨fun k v h => Ev.noConfusion h, fun k h => Ev.noConfusion h⟩

/-- Witness for C5 with the server down and the empty-list fetch. -/
theorem C5_liveness_failure_fatal_witness :
    (runMain false (Json.arr [])).1 = 1 ∧ (1 : Nat) ≠ 0 ∧
    Ev.printErr ∈ (runMain false (Json.arr [])).2 ∧
    ∀ e ∈ (runMain false (Json.arr [])).2,
      (∀ k v, e ≠ Ev.setKey k v) ∧ (∀ k, e ≠ Ev.getKey k) :=
  C5_liveness_failure_fatal false (Json.arr []) rfl
